import Mathlib

/-!
Verification development for `load_song_and_extract_features.py`, a parallel
batch MFCC feature-extraction pipeline.  The script walks a music directory
twice (once counting candidate files, once enqueueing one job per candidate
onto a joinable queue), runs a fixed pool of daemon worker processes that
each loop dequeue / process / task-done, isolates per-job failures behind a
lock-protected shared error counter, and appends one quoted CSV row per
analysis frame of each sufficiently long song to a shared output file.

External collaborators (the eyed3 metadata reader, the librosa decoder and
MFCC routine, and the filesystem append) are modelled as oracles packaged in
a `World`: each is a pure function of the file path, returning either a
value or the failure category the library raises.  Machine floats are
modelled as rationals; worker interleaving is modelled by a small-step
transition relation with one atomic step per queue operation, per row
append, and per job completion (counter update under the lock plus
`task_done` in the `finally` block).
-/

namespace MusicClustering

/-! ## Policy constants (source lines 32-50) -/

def min_song_length : ℚ := 120

def librosa_load_offset : ℕ := 45

def librosa_load_duration : ℕ := 15

def num_mfcc_coefficients : ℕ := 10

def max_mfcc_frequency : ℕ := 8000

def num_workers : ℕ := 2

/-- Failure categories a job can raise: unreadable/malformed tags, an
unreadable audio payload, a text-encoding failure, or a failed append to the
output sink. -/
inductive PyErr where
  | metadataError
  | decodeError
  | encodingError
  | sinkWrite
  deriving DecidableEq

/-- The mp3 tag metadata returned by `eyed3_mp3_metadata_extract`
(source lines 101-109): title, artist, genre and `info.time_secs`. -/
structure Mp3Metadata where
  title : String
  artist : String
  genre : String
  time_secs : ℚ
  deriving DecidableEq

/-- Oracles for the external collaborators, all pure functions of the file
path: `meta` models `eyed3.load(...).tag/info`, `mfcc` models the
librosa load + `feature.mfcc` + per-song scaling of lines 111-124, and
`appendFails` models the filesystem: `appendFails p = some k` means the
k-th (0-based) open-append-close cycle for file `p` raises. -/
structure World where
  meta : String → Except PyErr Mp3Metadata
  mfcc : String → Except PyErr (List (List ℚ))
  appendFails : String → Option ℕ

/-- The `Song` object of source lines 81-124. When the song is shorter than
`min_song_length` no extraction is attempted and `mfcc_flat` is never
populated (modelled as `[]`; the script only reads it under the flag). -/
structure Song where
  mp3_title : String
  mp3_artist : String
  mp3_genre : String
  mp3_length : ℚ
  flag_to_analyze : Bool
  mfcc_flat : List (List ℚ)
  deriving DecidableEq

/-- `Song.__init__` (source lines 82-99): extract metadata, then extract the
MFCC matrix only if `mp3_length >= min_song_length`. Either extraction can
raise, which propagates out of the constructor. -/
def Song.init (w : World) (file_path : String) : Except PyErr Song :=
  match w.meta file_path with
  | Except.error e => Except.error e
  | Except.ok m =>
    if min_song_length ≤ m.time_secs then
      match w.mfcc file_path with
      | Except.error e => Except.error e
      | Except.ok mat => Except.ok ⟨m.title, m.artist, m.genre, m.time_secs, true, mat⟩
    else
      Except.ok ⟨m.title, m.artist, m.genre, m.time_secs, false, []⟩

/-! ## CSV row formatting (source lines 151-156) -/

/-- Exactly five decimal digits, zero padded, of `n % 100000`. -/
def fiveDigits (n : ℕ) : String :=
  String.mk [Nat.digitChar (n / 10000 % 10), Nat.digitChar (n / 1000 % 10),
    Nat.digitChar (n / 100 % 10), Nat.digitChar (n / 10 % 10), Nat.digitChar (n % 10)]

/-- The `'%.5f' % x` formatting of source line 153: a fixed-point decimal
string with exactly five digits after the decimal point. -/
def format5 (x : ℚ) : String :=
  ((if round (x * 100000) < (0 : ℤ) then "-" else "") ++
      toString ((round (x * 100000)).natAbs / 100000)) ++
    "." ++ fiveDigits ((round (x * 100000)).natAbs % 100000)

/-- Doubling of embedded quotes, as the csv writer performs on each field. -/
def escapeQuotes (s : String) : String :=
  String.mk (s.data.flatMap fun c => if c = '\"' then ['\"', '\"'] else [c])

/-- `csv.QUOTE_ALL` field serialization: every field is wrapped in double
quotes. -/
def quoteField (s : String) : String := "\"" ++ escapeQuotes s ++ "\""

/-- One serialized CSV line: every field quoted, comma separated. -/
def csvLine (fields : List String) : String :=
  String.intercalate "," (fields.map quoteField)

/-- A row as handed to `csv.writer.writerow`: the list of its fields. -/
abbrev Row := List String

/-- The `song_result` row of source lines 152-153:
`[current_song_counter, title, artist, genre]` extended with the
five-decimal formatted coefficients of one analysis frame. -/
def rowFields (seq : ℕ) (title artist genre : String) (arr : List ℚ) : Row :=
  [toString seq, title, artist, genre] ++ arr.map format5

/-! ## Jobs and per-job processing (source lines 131-157) -/

/-- The five-element list `[file_path, file, current_song_counter,
total_songs, num_workers]` put on the queue at source line 216. -/
structure Job where
  file_path : String
  file : String
  seq : ℕ
  total : ℕ
  nworkers : ℕ
  deriving DecidableEq

/-- What one job left behind: the rows its appends actually wrote to the
sink (in order), and the failure that aborted it, if any. -/
structure JobResult where
  rows : List Row
  err : Option PyErr
  deriving DecidableEq

/-- The per-row open-append-close loop of source lines 151-156 against the
append oracle: if the k-th append raises, the earlier rows stay written and
the job aborts with a sink-write failure. -/
def writeRows (failAt : Option ℕ) (rows : List Row) : List Row × Option PyErr :=
  match failAt with
  | none => (rows, none)
  | some k =>
    if k < rows.length then (rows.take k, some PyErr.sinkWrite) else (rows, none)

/-- `processor_job` (source lines 131-157): build the `Song`; if the flag is
set, emit one row per analysis frame through the append loop; otherwise a
successful no-op.  Any failure escaping `Song.__init__` or an append aborts
the job and is reported in `err` (caught by `processor`, lines 171-182). -/
def processor_job (w : World) (jb : Job) : JobResult :=
  match Song.init w jb.file_path with
  | Except.error e => ⟨[], some e⟩
  | Except.ok song =>
    if song.flag_to_analyze then
      let rows := song.mfcc_flat.map fun arr =>
        rowFields jb.seq song.mp3_title song.mp3_artist song.mp3_genre arr
      let res := writeRows (w.appendFails jb.file_path) rows
      ⟨res.1, res.2⟩
    else ⟨[], none⟩

/-! ## Directory enumeration (source lines 197-217) -/

/-- One file yielded by `os.walk`: the directory it sits in and its name. -/
structure FileEntry where
  root : String
  name : String
  deriving DecidableEq

/-- The last (up to) three characters, i.e. the Python slice `s[-3:]`. -/
def revTake3 (l : List Char) : List Char := (l.reverse.take 3).reverse

/-- The filter `s[-3:] == 'mp3'` used at source lines 202 and 214. -/
def endsMp3 (s : String) : Bool := revTake3 s.data == ['m', 'p', '3']

/-- `os.path.join(root, file)` (source line 211) for a relative file name:
concatenation with a separator added unless `root` already ends in one. -/
def joinPath (r n : String) : String :=
  if r = "" then n
  else if r.data.getLast? = some '/' then r ++ n
  else r ++ "/" ++ n

/-- The counting pre-scan of source lines 198-204: fold over the walk,
incrementing for each file whose name passes the `mp3` suffix test. -/
def total_songs (files : List FileEntry) : ℕ :=
  files.foldl (fun acc f => if endsMp3 f.name then acc + 1 else acc) 0

/-- The enqueue pass of source lines 207-217: for each walked file whose
joined path passes the suffix test, put a job with the running counter and
bump the counter. -/
def enqueueFrom (files : List FileEntry) (counter total nw : ℕ) : List Job :=
  match files with
  | [] => []
  | f :: rest =>
    if endsMp3 (joinPath f.root f.name) then
      ⟨joinPath f.root f.name, f.name, counter, total, nw⟩ ::
        enqueueFrom rest (counter + 1) total nw
    else enqueueFrom rest counter total nw

/-- The full enqueue pass: the counter starts at 1 (source line 207). -/
def enqueuePass (files : List FileEntry) (total nw : ℕ) : List Job :=
  enqueueFrom files 1 total nw

/-- Modelled from the spec: a file "has the audio extension `.mp3`" when its
name ends in the four characters `.mp3`.  Used only to compare the spec's
extension filter with the code's bare three-character suffix test. -/
def hasAudioExtMp3 (s : String) : Bool :=
  (s.data.reverse.take 4).reverse == ['.', 'm', 'p', '3']

/-! ## The queue / worker-pool transition system (source lines 161-192, 222-223) -/

/-- A worker is either blocked on `q.get()` or working a job with some rows
still to append; `err` is the failure the job's processing raised, if any,
registered at the `finally` boundary. -/
inductive WStatus where
  | idle
  | writing (job : Job) (remaining : List Row) (err : Option PyErr)
  deriving DecidableEq

/-- Shared state of one run: the queue buffer, the joinable queue's
unfinished-task count, the output sink (appended rows), the lock-protected
error counter, the worker pool, and ghost histories of dequeued and
completed (task-done'd) jobs and of per-failure log lines. -/
structure SysState where
  queue : List Job
  unfinished : ℕ
  sink : List Row
  errors : ℕ
  workers : List WStatus
  dequeued : List Job
  completed : List Job
  errorLogs : List String
  deriving DecidableEq

/-- Initial state once the coordinator has enqueued every job: `q.join()`
is called only after the enqueue loop, so the unfinished count equals the
number of jobs enqueued. -/
def initState (jobs : List Job) (n : ℕ) : SysState :=
  ⟨jobs, jobs.length, [], 0, List.replicate n WStatus.idle, [], [], []⟩

/-- The job a worker currently holds, as a multiset. -/
def wjobs : WStatus → Multiset Job
  | WStatus.idle => 0
  | WStatus.writing j _ _ => {j}

/-- The rows a worker has yet to append, as a multiset. -/
def wrows : WStatus → Multiset Row
  | WStatus.idle => 0
  | WStatus.writing _ rem _ => (rem : Multiset Row)

/-- 1 when the worker is mid-job. -/
def wbusy : WStatus → ℕ
  | WStatus.idle => 0
  | WStatus.writing _ _ _ => 1

def loadJobs (ws : List WStatus) : Multiset Job := (ws.map wjobs).sum

def loadRows (ws : List WStatus) : Multiset Row := (ws.map wrows).sum

def busyCount (ws : List WStatus) : ℕ := (ws.map wbusy).sum

/-- All rows the given jobs leave in the sink, as a multiset. -/
def rowsOf (w : World) (l : List Job) : Multiset Row :=
  (l.map fun j => ((processor_job w j).rows : Multiset Row)).sum

/-- One atomic action of the pool. `dequeue` is `q.get()` by an idle worker
(FIFO, exactly one worker receives the job); `append` is one
open-append-close of one row; `finish` is the per-job boundary of source
lines 174-182: on failure the counter is incremented once under the lock
and the failure logged with the job identity, then `q.task_done()` runs in
the `finally` block and the worker loops back to `q.get()`. -/
inductive Step (w : World) : SysState → SysState → Prop where
  | dequeue (s : SysState) (i : ℕ) (j : Job) (rest : List Job)
      (hw : s.workers[i]? = some WStatus.idle) (hq : s.queue = j :: rest) :
      Step w s { s with
        queue := rest,
        workers := s.workers.set i
          (WStatus.writing j (processor_job w j).rows (processor_job w j).err),
        dequeued := s.dequeued ++ [j] }
  | append (s : SysState) (i : ℕ) (j : Job) (r : Row) (rem : List Row) (e : Option PyErr)
      (hw : s.workers[i]? = some (WStatus.writing j (r :: rem) e)) :
      Step w s { s with
        sink := s.sink ++ [r],
        workers := s.workers.set i (WStatus.writing j rem e) }
  | finish (s : SysState) (i : ℕ) (j : Job) (e : Option PyErr)
      (hw : s.workers[i]? = some (WStatus.writing j [] e)) :
      Step w s { s with
        errors := s.errors + (if e.isSome then 1 else 0),
        unfinished := s.unfinished - 1,
        workers := s.workers.set i WStatus.idle,
        completed := s.completed ++ [j],
        errorLogs := s.errorLogs ++ (if e.isSome then [j.file] else []) }

/-- States a run with the given enqueued jobs and pool size can reach. -/
def Reach (w : World) (jobs : List Job) (n : ℕ) (s : SysState) : Prop :=
  Relation.ReflTransGen (Step w) (initState jobs n) s

/-- The state after worker 0 takes the front job and runs it to completion. -/
def afterJob (w : World) (s : SysState) (j : Job) (rest : List Job) : SysState :=
  { queue := rest
    unfinished := s.unfinished - 1
    sink := s.sink ++ (processor_job w j).rows
    errors := s.errors + (if (processor_job w j).err.isSome then 1 else 0)
    workers := s.workers
    dequeued := s.dequeued ++ [j]
    completed := s.completed ++ [j]
    errorLogs := s.errorLogs ++ (if (processor_job w j).err.isSome then [j.file] else []) }

/-- A concrete schedule: worker 0 drains the queue one job at a time. -/
def runFrom (w : World) : List Job → SysState → SysState
  | [], s => s
  | j :: rest, s => runFrom w rest (afterJob w s j rest)

/-- The final state of the sequential schedule started from the initial
state: an explicit, executable witness run. -/
def runInit (w : World) (jobs : List Job) (n : ℕ) : SysState :=
  runFrom w jobs (initState jobs n)

/-- Run invariant tying every reachable state to the enqueued job list. -/
structure Inv (w : World) (jobs : List Job) (s : SysState) : Prop where
  hqueue : s.dequeued ++ s.queue = jobs
  hjobs : ↑s.completed + loadJobs s.workers = (↑s.dequeued : Multiset Job)
  hunf : s.unfinished = s.queue.length + busyCount s.workers
  hsink : ↑s.sink + loadRows s.workers = rowsOf w s.dequeued
  herr : s.errors =
    (s.completed.filter fun j => ((processor_job w j).err).isSome).length
  hlog : (↑s.errorLogs : Multiset String) =
    ↑((s.completed.filter fun j => ((processor_job w j).err).isSome).map Job.file)
  hstatus : ∀ (i : ℕ) (j : Job) (rem : List Row) (e : Option PyErr),
    s.workers[i]? = some (WStatus.writing j rem e) → e = (processor_job w j).err

/-- A formatted field has the shape `⟨prefix⟩.⟨five decimal digits⟩`. -/
def fiveDecimalShape (s : String) : Prop :=
  ∃ a b : String, s = a ++ "." ++ b ∧ b.length = 5 ∧ ∀ c ∈ b.data, c.isDigit

/-! ## Concrete test fixtures -/

def pathA : String := "/music/a.mp3"

def pathB : String := "/music/b.mp3"

def jobA : Job := ⟨ "/music/a.mp3", "a.mp3", 1, 2, 2⟩

def jobB : Job := ⟨ "/music/b.mp3", "b.mp3", 2, 2, 2⟩

def jobsAB : List Job := [jobA, jobB]

def metaA : Mp3Metadata := ⟨ "Title A", "Artist A", "Rock", 150⟩

/-- Song A has readable tags and one analysis frame; song B's tags are
unreadable so its job fails. -/
def wTest : World where
  meta p := if p = pathA then Except.ok metaA else Except.error PyErr.metadataError
  mfcc _ := Except.ok [[1]]
  appendFails _ := none

/-- Agrees with `wTest` on everything about `pathA` but differs on other
files. -/
def wAgree : World where
  meta p := if p = pathA then Except.ok metaA else Except.error PyErr.decodeError
  mfcc p := if p = pathB then Except.ok [[2]] else Except.ok [[1]]
  appendFails _ := none

/-- Every append to the sink fails immediately (index 0). -/
def wSink : World where
  meta _ := Except.ok metaA
  mfcc _ := Except.ok [[1]]
  appendFails _ := some 0

/-- Three frames, and the second append (index 1) fails. -/
def wPartial : World where
  meta _ := Except.ok metaA
  mfcc _ := Except.ok [[1], [2], [3]]
  appendFails _ := some 1

def metaEdge : Mp3Metadata := ⟨ "Edge", "E", "Rock", 120⟩

/-- A song exactly at the two-minute threshold, with two analysis frames. -/
def wEdge : World where
  meta _ := Except.ok metaEdge
  mfcc _ := Except.ok [[1], [2]]
  appendFails _ := none

def metaShort : Mp3Metadata := ⟨ "Short", "S", "Rock", 90⟩

/-- A song below the threshold whose audio payload is corrupt: decoding it
would raise. -/
def wShort : World where
  meta _ := Except.ok metaShort
  mfcc _ := Except.error PyErr.decodeError
  appendFails _ := none

def arr10 : List ℚ := [1, 2, 3, 4, 5, 6, 7, 8, 9, 10]

/-- One frame with the full ten coefficients. -/
def wTen : World where
  meta _ := Except.ok metaA
  mfcc _ := Except.ok [arr10]
  appendFails _ := none

def fileCX : FileEntry := ⟨ "/music", "songmp3"⟩

def filesW : List FileEntry :=
  [⟨ "/music", "a.mp3"⟩, ⟨ "/music", "notes.txt"⟩, ⟨ "/music", "b.mp3"⟩]

/-! ## List helper lemmas -/

theorem getSet_self {α : Type} :
    ∀ (l : List α) (i : ℕ) (x : α), i < l.length → (l.set i x)[i]? = some x := by
  intro l
  induction l with
  | nil => intro i x h; simp at h
  | cons a t ih =>
    intro i x h
    cases i with
    | zero => simp
    | succ n =>
      simp only [List.set_cons_succ, List.getElem?_cons_succ]
      exact ih n x (by simpa using h)

theorem getSet_other {α : Type} :
    ∀ (l : List α) (i k : ℕ) (x : α), i ≠ k → (l.set i x)[k]? = l[k]? := by
  intro l
  induction l with
  | nil => intro i k x _; simp
  | cons a t ih =>
    intro i k x hik
    cases i with
    | zero =>
      cases k with
      | zero => exact absurd rfl hik
      | succ m => simp
    | succ n =>
      cases k with
      | zero => simp
      | succ m =>
        simp only [List.set_cons_succ, List.getElem?_cons_succ]
        exact ih n m x (fun h => hik (by rw [h]))

theorem setSelf_eq {α : Type} :
    ∀ (l : List α) (i : ℕ) (x : α), l[i]? = some x → l.set i x = l := by
  intro l
  induction l with
  | nil => intro i x h; simp at h
  | cons a t ih =>
    intro i x h
    cases i with
    | zero =>
      simp only [List.getElem?_cons_zero, Option.some.injEq] at h
      rw [List.set_cons_zero, h]
    | succ n =>
      simp only [List.getElem?_cons_succ] at h
      rw [List.set_cons_succ, ih n x h]

theorem lt_of_getElem?_some {α : Type} :
    ∀ (l : List α) (i : ℕ) (x : α), l[i]? = some x → i < l.length := by
  intro l
  induction l with
  | nil => intro i x h; simp at h
  | cons a t ih =>
    intro i x h
    cases i with
    | zero => simp
    | succ n =>
      simp only [List.getElem?_cons_succ] at h
      exact Nat.succ_lt_succ (ih n x h)

/-- Replacing the known entry at one index shifts an additive fold over the
list by exchanging that entry's contribution. -/
theorem sum_map_set {α : Type} {M : Type} [AddCommMonoid M] (f : α → M) :
    ∀ (l : List α) (i : ℕ) (x y : α), l[i]? = some y →
      ((l.set i x).map f).sum + f y = (l.map f).sum + f x := by
  intro l
  induction l with
  | nil => intro i x y h; simp at h
  | cons a t ih =>
    intro i x y h
    cases i with
    | zero =>
      simp only [List.getElem?_cons_zero, Option.some.injEq] at h
      subst h
      simp only [List.set_cons_zero, List.map_cons, List.sum_cons]
      abel
    | succ n =>
      simp only [List.getElem?_cons_succ] at h
      have hrec := ih n x y h
      simp only [List.set_cons_succ, List.map_cons, List.sum_cons]
      rw [add_assoc, hrec, ← add_assoc]

theorem all_idle_of_busy_zero :
    ∀ ws : List WStatus, busyCount ws = 0 → ∀ x ∈ ws, x = WStatus.idle := by
  intro ws
  induction ws with
  | nil => intro _ x hx; simp at hx
  | cons a t ih =>
    intro h x hx
    simp only [busyCount, List.map_cons, List.sum_cons] at h
    have ha : wbusy a = 0 := by omega
    have ht : busyCount t = 0 := by simp only [busyCount]; omega
    rcases List.mem_cons.mp hx with rfl | hx'
    · cases x with
      | idle => rfl
      | writing j rem e => simp [wbusy] at ha
    · exact ih ht x hx'

theorem loadJobs_eq_zero {ws : List WStatus} (h : busyCount ws = 0) :
    loadJobs ws = 0 := by
  have hall := all_idle_of_busy_zero ws h
  apply List.sum_eq_zero
  intro x hx
  rcases List.mem_map.mp hx with ⟨a, ha, rfl⟩
  rw [hall a ha]; rfl

theorem loadRows_eq_zero {ws : List WStatus} (h : busyCount ws = 0) :
    loadRows ws = 0 := by
  have hall := all_idle_of_busy_zero ws h
  apply List.sum_eq_zero
  intro x hx
  rcases List.mem_map.mp hx with ⟨a, ha, rfl⟩
  rw [hall a ha]; rfl

theorem loadJobs_replicate_idle (n : ℕ) : loadJobs (List.replicate n WStatus.idle) = 0 := by
  simp [loadJobs, List.map_replicate, wjobs]

theorem loadRows_replicate_idle (n : ℕ) : loadRows (List.replicate n WStatus.idle) = 0 := by
  simp [loadRows, List.map_replicate, wrows]

theorem busyCount_replicate_idle (n : ℕ) : busyCount (List.replicate n WStatus.idle) = 0 := by
  simp [busyCount, List.map_replicate, wbusy]

theorem rowsOf_append (w : World) (l₁ l₂ : List Job) :
    rowsOf w (l₁ ++ l₂) = rowsOf w l₁ + rowsOf w l₂ := by
  simp [rowsOf]

theorem rowsOf_singleton (w : World) (j : Job) :
    rowsOf w [j] = ((processor_job w j).rows : Multiset Row) := by
  simp [rowsOf]

theorem loadJobs_set (ws : List WStatus) (i : ℕ) (x y : WStatus)
    (h : ws[i]? = some y) : loadJobs (ws.set i x) + wjobs y = loadJobs ws + wjobs x :=
  sum_map_set wjobs ws i x y h

theorem loadRows_set (ws : List WStatus) (i : ℕ) (x y : WStatus)
    (h : ws[i]? = some y) : loadRows (ws.set i x) + wrows y = loadRows ws + wrows x :=
  sum_map_set wrows ws i x y h

theorem busyCount_set (ws : List WStatus) (i : ℕ) (x y : WStatus)
    (h : ws[i]? = some y) : busyCount (ws.set i x) + wbusy y = busyCount ws + wbusy x :=
  sum_map_set wbusy ws i x y h

/-! ## The run invariant is preserved -/

theorem inv_init (w : World) (jobs : List Job) (n : ℕ) :
    Inv w jobs (initState jobs n) := by
  refine ⟨rfl, ?_, ?_, ?_, rfl, rfl, ?_⟩
  · rw [show (initState jobs n).workers = List.replicate n WStatus.idle from rfl,
      loadJobs_replicate_idle]
    rfl
  · rw [show (initState jobs n).workers = List.replicate n WStatus.idle from rfl,
      busyCount_replicate_idle]
    simp [initState]
  · rw [show (initState jobs n).workers = List.replicate n WStatus.idle from rfl,
      loadRows_replicate_idle]
    simp [rowsOf, initState]
  · intro i j rem e h
    simp only [initState, List.getElem?_replicate] at h
    split at h
    · cases h
    · cases h

theorem inv_step {w : World} {jobs : List Job} {s s' : SysState}
    (hinv : Inv w jobs s) (hstep : Step w s s') : Inv w jobs s' := by
  cases hstep with
  | dequeue i j rest hw hq =>
    have hilt := lt_of_getElem?_some _ _ _ hw
    have hql : s.queue.length = rest.length + 1 := by rw [hq]; rfl
    have hl := loadJobs_set s.workers i
      (WStatus.writing j (processor_job w j).rows (processor_job w j).err) WStatus.idle hw
    have hb := busyCount_set s.workers i
      (WStatus.writing j (processor_job w j).rows (processor_job w j).err) WStatus.idle hw
    have hr := loadRows_set s.workers i
      (WStatus.writing j (processor_job w j).rows (processor_job w j).err) WStatus.idle hw
    simp only [wjobs, wrows, wbusy, add_zero] at hl hb hr
    refine ⟨?_, ?_, ?_, ?_, hinv.herr, hinv.hlog, ?_⟩
    · show (s.dequeued ++ [j]) ++ rest = jobs
      rw [List.append_assoc]
      rw [show ([j] ++ rest : List Job) = j :: rest from rfl, ← hq]
      exact hinv.hqueue
    · show ↑s.completed + loadJobs (s.workers.set i _) = (↑(s.dequeued ++ [j]) : Multiset Job)
      rw [hl, ← add_assoc, hinv.hjobs]
      rfl
    · show s.unfinished = rest.length + busyCount (s.workers.set i _)
      have := hinv.hunf
      omega
    · show ↑s.sink + loadRows (s.workers.set i _) = rowsOf w (s.dequeued ++ [j])
      rw [hr, ← add_assoc, hinv.hsink, rowsOf_append, rowsOf_singleton]
    · intro k j' rem' e' hk
      by_cases hik : i = k
      · subst hik
        rw [getSet_self _ _ _ hilt] at hk
        simp only [Option.some.injEq, WStatus.writing.injEq] at hk
        obtain ⟨rfl, -, rfl⟩ := hk
        rfl
      · rw [getSet_other _ _ _ _ hik] at hk
        exact hinv.hstatus k j' rem' e' hk
  | append i j r rem e hw =>
    have hilt := lt_of_getElem?_some _ _ _ hw
    have hl := loadJobs_set s.workers i (WStatus.writing j rem e)
      (WStatus.writing j (r :: rem) e) hw
    have hb := busyCount_set s.workers i (WStatus.writing j rem e)
      (WStatus.writing j (r :: rem) e) hw
    have hr := loadRows_set s.workers i (WStatus.writing j rem e)
      (WStatus.writing j (r :: rem) e) hw
    simp only [wjobs, wrows, wbusy] at hl hb hr
    have hl2 : loadJobs (s.workers.set i (WStatus.writing j rem e)) = loadJobs s.workers :=
      add_right_cancel hl
    have hb2 : busyCount (s.workers.set i (WStatus.writing j rem e)) = busyCount s.workers := by
      omega
    refine ⟨hinv.hqueue, ?_, ?_, ?_, hinv.herr, hinv.hlog, ?_⟩
    · show ↑s.completed + loadJobs (s.workers.set i _) = (↑s.dequeued : Multiset Job)
      rw [hl2]
      exact hinv.hjobs
    · show s.unfinished = s.queue.length + busyCount (s.workers.set i _)
      rw [hb2]
      exact hinv.hunf
    · show ↑(s.sink ++ [r]) + loadRows (s.workers.set i _) = rowsOf w s.dequeued
      have hr2 : (loadRows (s.workers.set i (WStatus.writing j rem e)) + {r}) +
          (↑rem : Multiset Row) = loadRows s.workers + ↑rem := by
        rw [add_assoc, Multiset.singleton_add, Multiset.cons_coe]
        exact hr
      have hr3 := add_right_cancel hr2
      rw [show (↑(s.sink ++ [r]) : Multiset Row) = ↑s.sink + {r} from rfl, add_assoc,
        add_comm ({r} : Multiset Row) _, hr3, hinv.hsink]
    · intro k j' rem' e' hk
      by_cases hik : i = k
      · subst hik
        rw [getSet_self _ _ _ hilt] at hk
        simp only [Option.some.injEq, WStatus.writing.injEq] at hk
        obtain ⟨rfl, -, rfl⟩ := hk
        exact hinv.hstatus _ j (r :: rem) e hw
      · rw [getSet_other _ _ _ _ hik] at hk
        exact hinv.hstatus k j' rem' e' hk
  | finish i j e hw =>
    have hilt := lt_of_getElem?_some _ _ _ hw
    have he : e = (processor_job w j).err := hinv.hstatus i j [] e hw
    have hl := loadJobs_set s.workers i WStatus.idle (WStatus.writing j [] e) hw
    have hb := busyCount_set s.workers i WStatus.idle (WStatus.writing j [] e) hw
    have hr := loadRows_set s.workers i WStatus.idle (WStatus.writing j [] e) hw
    simp only [wjobs, wrows, wbusy, add_zero] at hl hb hr
    refine ⟨hinv.hqueue, ?_, ?_, ?_, ?_, ?_, ?_⟩
    · show ↑(s.completed ++ [j]) + loadJobs (s.workers.set i _) = (↑s.dequeued : Multiset Job)
      rw [show (↑(s.completed ++ [j]) : Multiset Job) = ↑s.completed + {j} from rfl,
        add_assoc, add_comm ({j} : Multiset Job) _, hl]
      exact hinv.hjobs
    · show s.unfinished - 1 = s.queue.length + busyCount (s.workers.set i _)
      have := hinv.hunf
      omega
    · show ↑s.sink + loadRows (s.workers.set i _) = rowsOf w s.dequeued
      have hr2 : loadRows (s.workers.set i WStatus.idle) = loadRows s.workers := by
        simpa using hr
      rw [hr2]
      exact hinv.hsink
    · show s.errors + (if e.isSome then 1 else 0) =
        ((s.completed ++ [j]).filter fun j' => ((processor_job w j').err).isSome).length
      subst he
      rw [List.filter_append, List.length_append, hinv.herr]
      congr 1
      rcases hE : (processor_job w j).err with _ | x <;> simp [hE, List.filter_cons]
    · show (↑(s.errorLogs ++ (if e.isSome then [j.file] else [])) : Multiset String) =
        ↑(((s.completed ++ [j]).filter fun j' => ((processor_job w j').err).isSome).map Job.file)
      subst he
      rw [List.filter_append, List.map_append]
      rw [show ∀ u v : List String, (↑(u ++ v) : Multiset String) = ↑u + ↑v from fun u v => rfl]
      rw [show ∀ u v : List String, (↑(u ++ v) : Multiset String) = ↑u + ↑v from fun u v => rfl]
      rw [hinv.hlog]
      congr 1
      rcases hE : (processor_job w j).err with _ | x <;> simp [hE, List.filter_cons]
    · intro k j' rem' e' hk
      by_cases hik : i = k
      · subst hik
        rw [getSet_self _ _ _ hilt] at hk
        cases hk
      · rw [getSet_other _ _ _ _ hik] at hk
        exact hinv.hstatus k j' rem' e' hk

theorem inv_reach {w : World} {jobs : List Job} {n : ℕ} {s : SysState}
    (h : Reach w jobs n s) : Inv w jobs s := by
  induction h with
  | refl => exact inv_init w jobs n
  | tail _ hstep ih => exact inv_step ih hstep

/-- Characterization of any drained (`join()` returned) run: every enqueued
job was completed exactly once, the sink holds exactly the rows of every
job, and the error counter and error log match the failed jobs. -/
theorem terminal_char {w : World} {jobs : List Job} {n : ℕ} {s : SysState}
    (h : Reach w jobs n s) (h0 : s.unfinished = 0) :
    s.queue = [] ∧ s.dequeued = jobs ∧ s.completed.Perm jobs ∧
      (↑s.sink : Multiset Row) = rowsOf w jobs ∧
      s.errors = (jobs.filter fun j => ((processor_job w j).err).isSome).length ∧
      (↑s.errorLogs : Multiset String) =
        ↑((jobs.filter fun j => ((processor_job w j).err).isSome).map Job.file) := by
  have hinv := inv_reach h
  have hq0 : s.queue.length = 0 ∧ busyCount s.workers = 0 := by
    have := hinv.hunf
    omega
  have hqnil : s.queue = [] := List.length_eq_zero.mp hq0.1
  have hd : s.dequeued = jobs := by
    have := hinv.hqueue
    rwa [hqnil, List.append_nil] at this
  have hcm : (↑s.completed : Multiset Job) = ↑jobs := by
    have := hinv.hjobs
    rwa [loadJobs_eq_zero hq0.2, add_zero, hd] at this
  have hcperm : s.completed.Perm jobs := Multiset.coe_eq_coe.mp hcm
  refine ⟨hqnil, hd, hcperm, ?_, ?_, ?_⟩
  · have := hinv.hsink
    rwa [loadRows_eq_zero hq0.2, add_zero, hd] at this
  · rw [hinv.herr]
    exact (hcperm.filter _).length_eq
  · rw [hinv.hlog]
    exact Multiset.coe_eq_coe.mpr ((hcperm.filter _).map _)

/-! ## An explicit completing schedule: worker 0 drains the queue -/

theorem reach_drain (w : World) :
    ∀ (R : List Row) (s : SysState) (j : Job) (E : Option PyErr),
      s.workers[0]? = some (WStatus.writing j R E) →
      Relation.ReflTransGen (Step w) s
        { s with
          sink := s.sink ++ R
          workers := s.workers.set 0 (WStatus.writing j [] E) } := by
  intro R
  induction R with
  | nil =>
    intro s j E h
    have heq : ({ s with
        sink := s.sink ++ ([] : List Row)
        workers := s.workers.set 0 (WStatus.writing j [] E) } : SysState) = s := by
      rw [List.append_nil, setSelf_eq _ _ _ h]
    rw [heq]
  | cons r R ih =>
    intro s j E h
    have h1 : Step w s ({ s with
        sink := s.sink ++ [r]
        workers := s.workers.set 0 (WStatus.writing j R E) }) :=
      Step.append s 0 j r R E h
    have hget : (s.workers.set 0 (WStatus.writing j R E))[0]? =
        some (WStatus.writing j R E) :=
      getSet_self _ _ _ (lt_of_getElem?_some _ _ _ h)
    have h2 := ih { s with
        sink := s.sink ++ [r]
        workers := s.workers.set 0 (WStatus.writing j R E) } j E hget
    have heq : ({ s with
        sink := (s.sink ++ [r]) ++ R
        workers := (s.workers.set 0 (WStatus.writing j R E)).set 0
          (WStatus.writing j [] E) } : SysState) =
        { s with
          sink := s.sink ++ (r :: R)
          workers := s.workers.set 0 (WStatus.writing j [] E) } := by
      rw [List.append_assoc, List.singleton_append, List.set_set]
    exact Relation.ReflTransGen.head h1 (heq ▸ h2)

theorem reach_afterJob (w : World) (s : SysState) (j : Job) (rest : List Job)
    (hq : s.queue = j :: rest) (hw : s.workers[0]? = some WStatus.idle) :
    Relation.ReflTransGen (Step w) s (afterJob w s j rest) := by
  have hlt := lt_of_getElem?_some _ _ _ hw
  have h1 : Step w s ({ s with
      queue := rest
      workers := s.workers.set 0
        (WStatus.writing j (processor_job w j).rows (processor_job w j).err)
      dequeued := s.dequeued ++ [j] }) :=
    Step.dequeue s 0 j rest hw hq
  have hget1 : (s.workers.set 0
      (WStatus.writing j (processor_job w j).rows (processor_job w j).err))[0]? =
      some (WStatus.writing j (processor_job w j).rows (processor_job w j).err) :=
    getSet_self _ _ _ hlt
  have h2 := reach_drain w (processor_job w j).rows
    ({ s with
      queue := rest
      workers := s.workers.set 0
        (WStatus.writing j (processor_job w j).rows (processor_job w j).err)
      dequeued := s.dequeued ++ [j] }) j (processor_job w j).err hget1
  have hget2 : ((s.workers.set 0
      (WStatus.writing j (processor_job w j).rows (processor_job w j).err)).set 0
        (WStatus.writing j [] (processor_job w j).err))[0]? =
      some (WStatus.writing j [] (processor_job w j).err) :=
    getSet_self _ _ _ (by rw [List.length_set]; exact hlt)
  have h3 := Step.finish (w := w)
    ({ s with
      queue := rest
      sink := s.sink ++ (processor_job w j).rows
      workers := (s.workers.set 0
        (WStatus.writing j (processor_job w j).rows (processor_job w j).err)).set 0
          (WStatus.writing j [] (processor_job w j).err)
      dequeued := s.dequeued ++ [j] }) 0 j (processor_job w j).err hget2
  have heq : ({ s with
      queue := rest
      sink := s.sink ++ (processor_job w j).rows
      workers := ((s.workers.set 0
        (WStatus.writing j (processor_job w j).rows (processor_job w j).err)).set 0
          (WStatus.writing j [] (processor_job w j).err)).set 0 WStatus.idle
      dequeued := s.dequeued ++ [j]
      errors := s.errors + (if (processor_job w j).err.isSome then 1 else 0)
      unfinished := s.unfinished - 1
      completed := s.completed ++ [j]
      errorLogs := s.errorLogs ++
        (if (processor_job w j).err.isSome then [j.file] else []) } : SysState) =
      afterJob w s j rest := by
    unfold afterJob
    rw [List.set_set, List.set_set, setSelf_eq _ _ _ hw]
  exact ((Relation.ReflTransGen.head h1 h2).tail h3).trans (by rw [heq])

theorem reach_runFrom (w : World) :
    ∀ (q : List Job) (s : SysState), s.queue = q →
      s.workers[0]? = some WStatus.idle →
      Relation.ReflTransGen (Step w) s (runFrom w q s) := by
  intro q
  induction q with
  | nil =>
    intro s _ _
    exact Relation.ReflTransGen.refl
  | cons j rest ih =>
    intro s hq hw
    have h1 := reach_afterJob w s j rest hq hw
    have h2 := ih (afterJob w s j rest) rfl hw
    exact h1.trans h2

theorem runFrom_unfinished (w : World) :
    ∀ (q : List Job) (s : SysState), (runFrom w q s).unfinished = s.unfinished - q.length := by
  intro q
  induction q with
  | nil => intro s; rfl
  | cons j rest ih =>
    intro s
    show (runFrom w rest (afterJob w s j rest)).unfinished = _
    rw [ih (afterJob w s j rest)]
    show s.unfinished - 1 - rest.length = s.unfinished - (rest.length + 1)
    omega

theorem initState_worker0 (jobs : List Job) (n : ℕ) (hn : 0 < n) :
    (initState jobs n).workers[0]? = some WStatus.idle := by
  cases n with
  | zero => omega
  | succ m => simp [initState, List.replicate_succ]

theorem reach_runInit (w : World) (jobs : List Job) (n : ℕ) (hn : 0 < n) :
    Reach w jobs n (runInit w jobs n) :=
  reach_runFrom w jobs (initState jobs n) rfl (initState_worker0 jobs n hn)

theorem runInit_unfinished (w : World) (jobs : List Job) (n : ℕ) :
    (runInit w jobs n).unfinished = 0 := by
  show (runFrom w jobs (initState jobs n)).unfinished = 0
  rw [runFrom_unfinished]
  show jobs.length - jobs.length = 0
  omega

/-! ## Suffix filter and path lemmas -/

theorem revTake3_append_ge (u v : List Char) (h : 3 ≤ v.length) :
    revTake3 (u ++ v) = revTake3 v := by
  unfold revTake3
  rw [List.reverse_append, List.take_append_of_le_length (by simpa using h)]

theorem slash_mem_revTake3 (u v : List Char) (h : v.length < 3) :
    '/' ∈ revTake3 (u ++ '/' :: v) := by
  unfold revTake3
  rw [List.mem_reverse]
  rw [show (u ++ '/' :: v) = (u ++ ['/']) ++ v from by simp, List.reverse_append,
    List.take_append_eq_append_take]
  apply List.mem_append.mpr
  right
  rw [show (u ++ ['/']).reverse = '/' :: u.reverse from by simp]
  have h1 : 1 ≤ 3 - v.reverse.length := by
    rw [List.length_reverse]
    omega
  rcases Nat.exists_eq_add_of_le h1 with ⟨k, hk⟩
  rw [hk]
  rw [show 1 + k = k + 1 from by omega, List.take_succ_cons]
  exact List.mem_cons_self _ _

theorem endsMp3_short (v : List Char) (h : v.length < 3) :
    ((revTake3 v == ['m', 'p', '3']) : Bool) = false := by
  apply beq_eq_false_iff_ne.mpr
  intro heq
  have : (revTake3 v).length = 3 := by rw [heq]; rfl
  unfold revTake3 at this
  rw [List.length_reverse, List.length_take, List.length_reverse] at this
  omega

theorem endsMp3_slash (u v : List Char) (h : v.length < 3) :
    ((revTake3 (u ++ '/' :: v) == ['m', 'p', '3']) : Bool) = false := by
  apply beq_eq_false_iff_ne.mpr
  intro heq
  have hmem := slash_mem_revTake3 u v h
  rw [heq] at hmem
  simp at hmem

/-- The `mp3` suffix test gives the same verdict on the joined path as on
the bare file name: the separator sits right before the name, so names
shorter than three characters can never match through the path either. -/
theorem endsMp3_joinPath (r n : String) : endsMp3 (joinPath r n) = endsMp3 n := by
  unfold joinPath
  split
  · rfl
  · split
    · next h1 h2 =>
      obtain ⟨t, ht⟩ := List.getLast?_eq_some_iff.mp h2
      have hdata : (r ++ n).data = t ++ '/' :: n.data := by
        rw [String.data_append, ht]
        simp
      unfold endsMp3
      rw [hdata]
      by_cases hn : 3 ≤ n.data.length
      · rw [show t ++ '/' :: n.data = (t ++ ['/']) ++ n.data from by simp,
          revTake3_append_ge _ _ hn]
      · rw [endsMp3_slash _ _ (by omega), endsMp3_short _ (by omega)]
    · next h1 h2 =>
      have hdata : (r ++ "/" ++ n).data = r.data ++ '/' :: n.data := by
        rw [String.data_append, String.data_append]
        rw [show ("/" : String).data = ['/'] from by decide]
        simp
      unfold endsMp3
      rw [hdata]
      by_cases hn : 3 ≤ n.data.length
      · rw [show r.data ++ '/' :: n.data = (r.data ++ ['/']) ++ n.data from by simp,
          revTake3_append_ge _ _ hn]
      · rw [endsMp3_slash _ _ (by omega), endsMp3_short _ (by omega)]

/-! ## Enumeration lemmas -/

theorem total_songs_aux (files : List FileEntry) :
    ∀ acc : ℕ, files.foldl (fun acc f => if endsMp3 f.name then acc + 1 else acc) acc =
      acc + (files.filter fun f => endsMp3 f.name).length := by
  induction files with
  | nil => intro acc; simp
  | cons f rest ih =>
    intro acc
    rw [List.foldl_cons, List.filter_cons]
    by_cases hf : endsMp3 f.name
    · rw [if_pos hf, if_pos hf, ih]
      simp only [List.length_cons]
      omega
    · rw [if_neg hf, if_neg hf, ih]

theorem total_songs_eq_filter (files : List FileEntry) :
    total_songs files = (files.filter fun f => endsMp3 f.name).length := by
  unfold total_songs
  rw [total_songs_aux files 0]
  omega

theorem enqueueFrom_length (files : List FileEntry) :
    ∀ c t nw : ℕ, (enqueueFrom files c t nw).length =
      (files.filter fun f => endsMp3 f.name).length := by
  induction files with
  | nil => intro c t nw; rfl
  | cons f rest ih =>
    intro c t nw
    unfold enqueueFrom
    rw [endsMp3_joinPath, List.filter_cons]
    by_cases hf : endsMp3 f.name
    · rw [if_pos hf, if_pos hf]
      simp only [List.length_cons, ih]
    · rw [if_neg hf, if_neg hf]
      exact ih c t nw

theorem enqueueFrom_map_file (files : List FileEntry) :
    ∀ c t nw : ℕ, (enqueueFrom files c t nw).map Job.file =
      (files.filter fun f => endsMp3 f.name).map FileEntry.name := by
  induction files with
  | nil => intro c t nw; rfl
  | cons f rest ih =>
    intro c t nw
    unfold enqueueFrom
    rw [endsMp3_joinPath, List.filter_cons]
    by_cases hf : endsMp3 f.name
    · rw [if_pos hf, if_pos hf, List.map_cons, List.map_cons, ih]
    · rw [if_neg hf, if_neg hf]
      exact ih c t nw

theorem enqueueFrom_map_seq (files : List FileEntry) :
    ∀ c t nw : ℕ, (enqueueFrom files c t nw).map Job.seq =
      List.range' c (enqueueFrom files c t nw).length := by
  induction files with
  | nil => intro c t nw; rfl
  | cons f rest ih =>
    intro c t nw
    unfold enqueueFrom
    by_cases hf : endsMp3 (joinPath f.root f.name)
    · rw [if_pos hf, List.map_cons, List.length_cons, ih]
      exact (List.range'_succ c (enqueueFrom rest (c + 1) t nw).length 1).symm
    · rw [if_neg hf]
      exact ih c t nw

theorem enqueueFrom_total (files : List FileEntry) :
    ∀ c t nw : ℕ, ∀ jb ∈ enqueueFrom files c t nw, jb.total = t := by
  induction files with
  | nil => intro c t nw jb h; simp [enqueueFrom] at h
  | cons f rest ih =>
    intro c t nw jb h
    unfold enqueueFrom at h
    by_cases hf : endsMp3 (joinPath f.root f.name)
    · rw [if_pos hf] at h
      rcases List.mem_cons.mp h with rfl | h'
      · rfl
      · exact ih (c + 1) t nw jb h'
    · rw [if_neg hf] at h
      exact ih c t nw jb h

/-! ## Formatting lemmas -/

theorem fiveDigits_length (n : ℕ) : (fiveDigits n).length = 5 := rfl

theorem fiveDigits_digits (n : ℕ) : ∀ c ∈ (fiveDigits n).data, c.isDigit := by
  have h10 : ∀ d : ℕ, d < 10 → (Nat.digitChar d).isDigit = true := by decide
  intro c hc
  simp only [fiveDigits, List.mem_cons, List.not_mem_nil, or_false] at hc
  rcases hc with rfl | rfl | rfl | rfl | rfl <;>
    exact h10 _ (Nat.mod_lt _ (by omega))

theorem format5_shape (x : ℚ) : fiveDecimalShape (format5 x) :=
  ⟨(if round (x * 100000) < (0 : ℤ) then "-" else "") ++
      toString ((round (x * 100000)).natAbs / 100000),
    fiveDigits ((round (x * 100000)).natAbs % 100000), rfl, rfl, fiveDigits_digits _⟩

theorem quoteField_quoted (s : String) :
    ∃ mid, quoteField s = "\"" ++ mid ++ "\"" := ⟨escapeQuotes s, rfl⟩

/-! ## The claims -/

/-- Claim C1: in every run, each enqueued job is dequeued by exactly one
worker (the dequeued history is a prefix of the enqueued list and every
dequeued job is held by exactly one worker or completed), each job is
marked done exactly once via `task_done` in the `finally` block (on success
or handled failure), and the coordinator's final `join()` (the unfinished
count reaching zero) unblocks only when every enqueued job has been marked
done: no job is processed twice or lost. -/
theorem c1_at_most_once_and_join (w : World) (jobs : List Job) (n : ℕ) (s : SysState)
    (h : Reach w jobs n s) :
    s.dequeued ++ s.queue = jobs ∧
      (↑s.completed + loadJobs s.workers = (↑s.dequeued : Multiset Job)) ∧
      s.unfinished = s.queue.length + busyCount s.workers ∧
      (s.unfinished = 0 → s.queue = [] ∧ s.completed.Perm jobs) := by
  have hinv := inv_reach h
  refine ⟨hinv.hqueue, hinv.hjobs, hinv.hunf, fun h0 => ?_⟩
  obtain ⟨hq, -, hperm, -, -, -⟩ := terminal_char h h0
  exact ⟨hq, hperm⟩

theorem c1_witness :
    Reach wTest jobsAB 1 (runInit wTest jobsAB 1) ∧
      ((runInit wTest jobsAB 1).dequeued ++ (runInit wTest jobsAB 1).queue = jobsAB ∧
        (↑(runInit wTest jobsAB 1).completed + loadJobs (runInit wTest jobsAB 1).workers =
          (↑(runInit wTest jobsAB 1).dequeued : Multiset Job)) ∧
        (runInit wTest jobsAB 1).unfinished =
          (runInit wTest jobsAB 1).queue.length + busyCount (runInit wTest jobsAB 1).workers ∧
        ((runInit wTest jobsAB 1).unfinished = 0 →
          (runInit wTest jobsAB 1).queue = [] ∧
            (runInit wTest jobsAB 1).completed.Perm jobsAB)) :=
  ⟨reach_runInit wTest jobsAB 1 (by omega),
    c1_at_most_once_and_join wTest jobsAB 1 _ (reach_runInit wTest jobsAB 1 (by omega))⟩

/-- Claim C2: in every drained run, the error counter equals the number of
jobs whose processing failed (each failing job incremented it exactly once,
under the lock, at its `finish` action), every failing job's identity was
logged, every job — including every non-failing one — was still completed,
and a completing schedule exists from the initial state, so a single job's
failure terminates neither the worker loop nor the run. -/
theorem c2_error_isolation (w : World) (jobs : List Job) (n : ℕ) (s : SysState)
    (hn : 0 < n) (h : Reach w jobs n s) (h0 : s.unfinished = 0) :
    s.errors = (jobs.filter fun j => ((processor_job w j).err).isSome).length ∧
      (↑s.errorLogs : Multiset String) =
        ↑((jobs.filter fun j => ((processor_job w j).err).isSome).map Job.file) ∧
      s.completed.Perm jobs ∧
      Reach w jobs n (runInit w jobs n) ∧ (runInit w jobs n).unfinished = 0 := by
  obtain ⟨-, -, hperm, -, herr, hlog⟩ := terminal_char h h0
  exact ⟨herr, hlog, hperm, reach_runInit w jobs n hn, runInit_unfinished w jobs n⟩

theorem c2_witness :
    (0 < 1 ∧ Reach wTest jobsAB 1 (runInit wTest jobsAB 1) ∧
        (runInit wTest jobsAB 1).unfinished = 0) ∧
      ((runInit wTest jobsAB 1).errors =
          (jobsAB.filter fun j => ((processor_job wTest j).err).isSome).length ∧
        (↑(runInit wTest jobsAB 1).errorLogs : Multiset String) =
          ↑((jobsAB.filter fun j => ((processor_job wTest j).err).isSome).map Job.file) ∧
        (runInit wTest jobsAB 1).completed.Perm jobsAB ∧
        Reach wTest jobsAB 1 (runInit wTest jobsAB 1) ∧
        (runInit wTest jobsAB 1).unfinished = 0) :=
  ⟨⟨by omega, reach_runInit wTest jobsAB 1 (by omega), runInit_unfinished wTest jobsAB 1⟩,
    c2_error_isolation wTest jobsAB 1 _ (by omega)
      (reach_runInit wTest jobsAB 1 (by omega)) (runInit_unfinished wTest jobsAB 1)⟩

/-- Claim C3 counterexample: a job whose sink append fails (disk
full/permission) is NOT treated as fatal and does not propagate out of the
per-job error handler: the bare `except Exception` of `processor` catches
it like any other failure, the counter is incremented, the job is marked
done, and the run drains normally. -/
theorem c3_counterexample :
    (processor_job wSink jobA).err = some PyErr.sinkWrite ∧
      Reach wSink [jobA] 1 (runInit wSink [jobA] 1) ∧
      (runInit wSink [jobA] 1).unfinished = 0 ∧
      (runInit wSink [jobA] 1).errors = 1 ∧
      (runInit wSink [jobA] 1).completed = [jobA] :=
  ⟨by decide, reach_runInit wSink [jobA] 1 (by omega), by decide, by decide, by decide⟩

/-- Claim C3 (amended): a failed sink append is caught at the per-job
isolation boundary exactly like decode/metadata/encoding failures: in any
drained run of that one job the error counter shows 1, the job is completed
(marked done), and its identity is logged: the failure is swallowed, not
propagated out of the worker loop. -/
theorem c3_amended (w : World) (j : Job) (n : ℕ) (s : SysState)
    (he : (processor_job w j).err = some PyErr.sinkWrite)
    (h : Reach w [j] n s) (h0 : s.unfinished = 0) :
    s.errors = 1 ∧ s.completed.Perm [j] ∧
      (↑s.errorLogs : Multiset String) = ↑[j.file] := by
  obtain ⟨-, -, hperm, -, herr, hlog⟩ := terminal_char h h0
  refine ⟨?_, hperm, ?_⟩
  · rw [herr]
    simp [he]
  · rw [hlog]
    simp [he]

theorem c3_witness :
    ((processor_job wSink jobA).err = some PyErr.sinkWrite ∧
        Reach wSink [jobA] 1 (runInit wSink [jobA] 1) ∧
        (runInit wSink [jobA] 1).unfinished = 0) ∧
      ((runInit wSink [jobA] 1).errors = 1 ∧
        (runInit wSink [jobA] 1).completed.Perm [jobA] ∧
        (↑(runInit wSink [jobA] 1).errorLogs : Multiset String) = ↑[jobA.file]) :=
  ⟨⟨by decide, reach_runInit wSink [jobA] 1 (by omega), by decide⟩,
    c3_amended wSink jobA 1 _ (by decide)
      (reach_runInit wSink [jobA] 1 (by omega)) (by decide)⟩

/-- Claim C4: a job whose metadata duration equals the minimum-song-length
threshold (120 s) is analyzed — the MFCC extraction runs (its matrix ends up
in the constructed `Song`) and one row per analysis frame is emitted with no
error — while a job whose duration is strictly below the threshold yields
zero output rows, no error, a successful no-op. -/
theorem c4_threshold_boundary (w : World) (j : Job) (m : Mp3Metadata)
    (mat : List (List ℚ))
    (hm : w.meta j.file_path = Except.ok m)
    (hmf : w.mfcc j.file_path = Except.ok mat)
    (hap : w.appendFails j.file_path = none) :
    (m.time_secs = min_song_length →
      Song.init w j.file_path =
          Except.ok ⟨m.title, m.artist, m.genre, m.time_secs, true, mat⟩ ∧
        (processor_job w j).rows.length = mat.length ∧
        (processor_job w j).err = none) ∧
    (m.time_secs < min_song_length → processor_job w j = ⟨[], none⟩) := by
  constructor
  · intro heq
    have hle : min_song_length ≤ m.time_secs := le_of_eq heq.symm
    have hsong : Song.init w j.file_path =
        Except.ok ⟨m.title, m.artist, m.genre, m.time_secs, true, mat⟩ := by
      simp [Song.init, hm, hmf, hle]
    have hpj : processor_job w j =
        ⟨mat.map fun arr => rowFields j.seq m.title m.artist m.genre arr, none⟩ := by
      unfold processor_job
      rw [hsong]
      simp [hap, writeRows]
    rw [hpj]
    simpa using hsong
  · intro hlt
    have hnle : ¬ min_song_length ≤ m.time_secs := not_le.mpr hlt
    have hsong : Song.init w j.file_path =
        Except.ok ⟨m.title, m.artist, m.genre, m.time_secs, false, []⟩ := by
      simp [Song.init, hm, hnle]
    unfold processor_job
    rw [hsong]
    rfl

theorem c4_witness :
    (wEdge.meta jobA.file_path = Except.ok metaEdge ∧
        wEdge.mfcc jobA.file_path = Except.ok [[1], [2]] ∧
        wEdge.appendFails jobA.file_path = none) ∧
      ((metaEdge.time_secs = min_song_length →
          Song.init wEdge jobA.file_path =
              Except.ok ⟨metaEdge.title, metaEdge.artist, metaEdge.genre,
                metaEdge.time_secs, true, [[1], [2]]⟩ ∧
            (processor_job wEdge jobA).rows.length = ([[1], [2]] : List (List ℚ)).length ∧
            (processor_job wEdge jobA).err = none) ∧
        (metaEdge.time_secs < min_song_length → processor_job wEdge jobA = ⟨[], none⟩)) :=
  ⟨⟨rfl, rfl, rfl⟩, c4_threshold_boundary wEdge jobA metaEdge [[1], [2]] rfl rfl rfl⟩

/-- Claim C5: every row emitted by a job is, in order, the sequence number,
title, artist and genre followed by the coefficients of one analysis frame,
so it has exactly `4 + num_mfcc_coefficients` fields (given the extractor's
contract that each frame has `num_mfcc_coefficients` coefficients); every
coefficient field is formatted with exactly five decimal places, and the
serialized line quotes every field. -/
theorem c5_row_shape (w : World) (j : Job) (m : Mp3Metadata)
    (mat : List (List ℚ)) (r : Row)
    (hm : w.meta j.file_path = Except.ok m)
    (hlen : min_song_length ≤ m.time_secs)
    (hmf : w.mfcc j.file_path = Except.ok mat)
    (hcoef : ∀ arr ∈ mat, arr.length = num_mfcc_coefficients)
    (hr : r ∈ (processor_job w j).rows) :
    (∃ arr ∈ mat, r = [toString j.seq, m.title, m.artist, m.genre] ++ arr.map format5) ∧
      r.length = 4 + num_mfcc_coefficients ∧
      (∀ x ∈ r.drop 4, fiveDecimalShape x) ∧
      (∀ fld ∈ r, ∃ mid, quoteField fld = "\"" ++ mid ++ "\"") ∧
      csvLine r = String.intercalate "," (r.map quoteField) := by
  have hsong : Song.init w j.file_path =
      Except.ok ⟨m.title, m.artist, m.genre, m.time_secs, true, mat⟩ := by
    simp [Song.init, hm, hmf, hlen]
  have hfst : (processor_job w j).rows =
      (writeRows (w.appendFails j.file_path)
        (mat.map fun arr => rowFields j.seq m.title m.artist m.genre arr)).1 := by
    unfold processor_job
    rw [hsong]
    rfl
  rw [hfst] at hr
  have hrows : r ∈ mat.map fun arr => rowFields j.seq m.title m.artist m.genre arr := by
    cases hap : w.appendFails j.file_path with
    | none =>
      rw [hap] at hr
      exact hr
    | some k =>
      rw [hap] at hr
      rw [show writeRows (some k)
            (mat.map fun arr => rowFields j.seq m.title m.artist m.genre arr) =
          if k < (mat.map fun arr => rowFields j.seq m.title m.artist m.genre arr).length
          then ((mat.map fun arr => rowFields j.seq m.title m.artist m.genre arr).take k,
            some PyErr.sinkWrite)
          else (mat.map fun arr => rowFields j.seq m.title m.artist m.genre arr, none)
        from rfl] at hr
      by_cases hk : k < (mat.map fun arr => rowFields j.seq m.title m.artist m.genre arr).length
      · rw [if_pos hk] at hr
        exact List.mem_of_mem_take hr
      · rw [if_neg hk] at hr
        exact hr
  obtain ⟨arr, harr, hreq⟩ := List.mem_map.mp hrows
  have hrarr : r = [toString j.seq, m.title, m.artist, m.genre] ++ arr.map format5 :=
    hreq.symm
  subst hrarr
  refine ⟨⟨arr, harr, rfl⟩, ?_, ?_, ?_, rfl⟩
  · rw [List.length_append, List.length_map, hcoef arr harr]
    rfl
  · intro x hx
    have hdrop : ([toString j.seq, m.title, m.artist, m.genre] ++ arr.map format5).drop 4 =
        arr.map format5 := by
      rw [show (4 : ℕ) =
          ([toString j.seq, m.title, m.artist, m.genre] : List String).length from rfl,
        List.drop_left]
    rw [hdrop] at hx
    obtain ⟨q, -, hq⟩ := List.mem_map.mp hx
    rw [← hq]
    exact format5_shape q
  · intro fld _
    exact quoteField_quoted fld

theorem c5_witness :
    (wTen.meta jobA.file_path = Except.ok metaA ∧
        min_song_length ≤ metaA.time_secs ∧
        wTen.mfcc jobA.file_path = Except.ok [arr10] ∧
        (∀ arr ∈ [arr10], arr.length = num_mfcc_coefficients) ∧
        rowFields jobA.seq metaA.title metaA.artist metaA.genre arr10 ∈
          (processor_job wTen jobA).rows) ∧
      ((∃ arr ∈ [arr10],
          rowFields jobA.seq metaA.title metaA.artist metaA.genre arr10 =
            [toString jobA.seq, metaA.title, metaA.artist, metaA.genre] ++
              arr.map format5) ∧
        (rowFields jobA.seq metaA.title metaA.artist metaA.genre arr10).length =
          4 + num_mfcc_coefficients ∧
        (∀ x ∈ (rowFields jobA.seq metaA.title metaA.artist metaA.genre arr10).drop 4,
          fiveDecimalShape x) ∧
        (∀ fld ∈ rowFields jobA.seq metaA.title metaA.artist metaA.genre arr10,
          ∃ mid, quoteField fld = "\"" ++ mid ++ "\"") ∧
        csvLine (rowFields jobA.seq metaA.title metaA.artist metaA.genre arr10) =
          String.intercalate ","
            ((rowFields jobA.seq metaA.title metaA.artist metaA.genre arr10).map
              quoteField)) :=
  ⟨⟨rfl, by decide, rfl, by decide,
      by
        rw [show (processor_job wTen jobA).rows =
          [rowFields jobA.seq metaA.title metaA.artist metaA.genre arr10] from rfl]
        exact List.mem_singleton.mpr rfl⟩,
    c5_row_shape wTen jobA metaA [arr10] _ rfl (by decide) rfl (by decide)
      (by
        rw [show (processor_job wTen jobA).rows =
          [rowFields jobA.seq metaA.title metaA.artist metaA.genre arr10] from rfl]
        exact List.mem_singleton.mpr rfl)⟩

/-- Claim C10: when the metadata duration is below the threshold, the audio
decode and MFCC extraction are never invoked — the job's outcome is the
same successful no-op for every possible decode oracle, including one whose
audio payload is corrupt and would raise a decode error — so the
decode-error branch is unreachable for short songs and the error counter is
not incremented. -/
theorem c10_short_skips_decode (w : World) (j : Job) (m : Mp3Metadata)
    (f : String → Except PyErr (List (List ℚ)))
    (hm : w.meta j.file_path = Except.ok m)
    (hshort : m.time_secs < min_song_length) :
    processor_job w j = ⟨[], none⟩ ∧
      processor_job ⟨w.meta, f, w.appendFails⟩ j = ⟨[], none⟩ ∧
      (processor_job w j).err = none := by
  have h1 : ∀ (g : String → Except PyErr (List (List ℚ))) (ap : String → Option ℕ),
      processor_job ⟨w.meta, g, ap⟩ j = ⟨[], none⟩ := by
    intro g ap
    have hnle : ¬ min_song_length ≤ m.time_secs := not_le.mpr hshort
    have hsong : Song.init ⟨w.meta, g, ap⟩ j.file_path =
        Except.ok ⟨m.title, m.artist, m.genre, m.time_secs, false, []⟩ := by
      simp [Song.init, show (⟨w.meta, g, ap⟩ : World).meta = w.meta from rfl, hm, hnle]
    unfold processor_job
    rw [hsong]
    rfl
  refine ⟨h1 w.mfcc w.appendFails, h1 f w.appendFails, ?_⟩
  rw [h1 w.mfcc w.appendFails]

theorem c10_witness :
    (wShort.meta jobA.file_path = Except.ok metaShort ∧
        metaShort.time_secs < min_song_length) ∧
      (processor_job wShort jobA = ⟨[], none⟩ ∧
        processor_job
            ⟨wShort.meta, fun _ => Except.error PyErr.decodeError, wShort.appendFails⟩
            jobA = ⟨[], none⟩ ∧
        (processor_job wShort jobA).err = none) :=
  ⟨⟨rfl, by decide⟩,
    c10_short_skips_decode wShort jobA metaShort
      (fun _ => Except.error PyErr.decodeError) rfl (by decide)⟩

/-- Claim C6 counterexample: the file name `songmp3` does not have the
audio extension `.mp3` (no dot), yet the counting pass counts it and the
enqueue pass enqueues it, because the code only compares the last three
characters of the name/path with `mp3` — refuting the claimed
"if and only if it has the audio extension `.mp3`". -/
theorem c6_counterexample :
    total_songs [fileCX] = 1 ∧
      (enqueuePass [fileCX] 1 2).length = 1 ∧
      hasAudioExtMp3 fileCX.name = false := by
  refine ⟨by decide, by decide, by decide⟩

/-- Claim C6 (amended): a discovered file is counted, and enqueued, exactly
when the last three characters of its name are `mp3` (a bare suffix test,
dot not required, case sensitive); all other files are skipped by both
passes. -/
theorem c6_amended (files : List FileEntry) (t nw : ℕ) :
    total_songs files = (files.filter fun f => endsMp3 f.name).length ∧
      (enqueuePass files t nw).map Job.file =
        (files.filter fun f => endsMp3 f.name).map FileEntry.name :=
  ⟨total_songs_eq_filter files, enqueueFrom_map_file files 1 t nw⟩

/-- Claim C7: when both traversal passes visit the same files in the same
order, the enqueue pass assigns sequence numbers 1, 2, ... to the matching
files in order, the number of jobs enqueued equals the `total_songs`
computed by the counting pre-scan, and every job carries that total — so
the enqueued sequence numbers are exactly 1..total_jobs. -/
theorem c7_sequence_numbers (files₁ files₂ : List FileEntry) (nw : ℕ)
    (h : files₁ = files₂) :
    (enqueuePass files₂ (total_songs files₁) nw).length = total_songs files₁ ∧
      (enqueuePass files₂ (total_songs files₁) nw).map Job.seq =
        List.range' 1 (total_songs files₁) ∧
      ∀ jb ∈ enqueuePass files₂ (total_songs files₁) nw,
        jb.total = total_songs files₁ := by
  subst h
  have hlen : (enqueuePass files₁ (total_songs files₁) nw).length = total_songs files₁ := by
    unfold enqueuePass
    rw [enqueueFrom_length, total_songs_eq_filter]
  refine ⟨hlen, ?_, enqueueFrom_total files₁ 1 (total_songs files₁) nw⟩
  have hseq := enqueueFrom_map_seq files₁ 1 (total_songs files₁) nw
  unfold enqueuePass
  rw [hseq]
  unfold enqueuePass at hlen
  rw [hlen]

theorem c7_witness :
    filesW = filesW ∧
      ((enqueuePass filesW (total_songs filesW) 2).length = total_songs filesW ∧
        (enqueuePass filesW (total_songs filesW) 2).map Job.seq =
          List.range' 1 (total_songs filesW) ∧
        ∀ jb ∈ enqueuePass filesW (total_songs filesW) 2,
          jb.total = total_songs filesW) :=
  ⟨rfl, c7_sequence_numbers filesW filesW 2 rfl⟩

/-- Claim C8: two drained runs over the same enqueued jobs with any two
worker-pool sizes produce the same multiset of output rows (ignoring row
order) and the same final error-counter value; and the processing of one
job depends only on that job and on the oracles' answers for that job's own
file (the per-song scaling is computed inside the per-file extraction), so
no statistic leaks across songs or workers. -/
theorem c8_schedule_invariance (w wa wb : World) (jobs : List Job) (j : Job)
    (n₁ n₂ : ℕ) (s₁ s₂ : SysState)
    (h₁ : Reach w jobs n₁ s₁) (t₁ : s₁.unfinished = 0)
    (h₂ : Reach w jobs n₂ s₂) (t₂ : s₂.unfinished = 0)
    (hmeta : wa.meta j.file_path = wb.meta j.file_path)
    (hmf : wa.mfcc j.file_path = wb.mfcc j.file_path)
    (hap : wa.appendFails j.file_path = wb.appendFails j.file_path) :
    (↑s₁.sink : Multiset Row) = ↑s₂.sink ∧ s₁.errors = s₂.errors ∧
      processor_job wa j = processor_job wb j := by
  obtain ⟨-, -, -, hs₁, he₁, -⟩ := terminal_char h₁ t₁
  obtain ⟨-, -, -, hs₂, he₂, -⟩ := terminal_char h₂ t₂
  refine ⟨hs₁.trans hs₂.symm, he₁.trans he₂.symm, ?_⟩
  unfold processor_job Song.init
  simp only [hmeta, hmf, hap]

theorem c8_witness :
    (Reach wTest jobsAB 1 (runInit wTest jobsAB 1) ∧
        (runInit wTest jobsAB 1).unfinished = 0 ∧
        Reach wTest jobsAB 2 (runInit wTest jobsAB 2) ∧
        (runInit wTest jobsAB 2).unfinished = 0 ∧
        wTest.meta jobA.file_path = wAgree.meta jobA.file_path ∧
        wTest.mfcc jobA.file_path = wAgree.mfcc jobA.file_path ∧
        wTest.appendFails jobA.file_path = wAgree.appendFails jobA.file_path) ∧
      ((↑(runInit wTest jobsAB 1).sink : Multiset Row) = ↑(runInit wTest jobsAB 2).sink ∧
        (runInit wTest jobsAB 1).errors = (runInit wTest jobsAB 2).errors ∧
        processor_job wTest jobA = processor_job wAgree jobA) :=
  ⟨⟨reach_runInit wTest jobsAB 1 (by omega), runInit_unfinished wTest jobsAB 1,
      reach_runInit wTest jobsAB 2 (by omega), runInit_unfinished wTest jobsAB 2,
      rfl, rfl, rfl⟩,
    c8_schedule_invariance wTest wTest wAgree jobsAB jobA 1 2 _ _
      (reach_runInit wTest jobsAB 1 (by omega)) (runInit_unfinished wTest jobsAB 1)
      (reach_runInit wTest jobsAB 2 (by omega)) (runInit_unfinished wTest jobsAB 2)
      rfl rfl rfl⟩

/-- Claim C9: if a job's appends fail at index k after k of its rows have
already been appended (each via its own open-append-close cycle), the job
aborts with a sink-write failure, but the k already-appended rows remain:
in any drained run of that job the sink still holds exactly those partial
rows while the job is counted as failed — the per-job boundary does not
roll back partial output. -/
theorem c9_partial_rows (w : World) (j : Job) (m : Mp3Metadata)
    (mat : List (List ℚ)) (k n : ℕ) (s : SysState)
    (hm : w.meta j.file_path = Except.ok m)
    (hlen : min_song_length ≤ m.time_secs)
    (hmf : w.mfcc j.file_path = Except.ok mat)
    (hfail : w.appendFails j.file_path = some k)
    (hk : k < mat.length) (hk0 : 0 < k)
    (h : Reach w [j] n s) (h0 : s.unfinished = 0) :
    (processor_job w j).rows =
        (mat.map fun arr => rowFields j.seq m.title m.artist m.genre arr).take k ∧
      (processor_job w j).rows ≠ [] ∧
      (processor_job w j).err = some PyErr.sinkWrite ∧
      (↑s.sink : Multiset Row) =
        ↑((mat.map fun arr => rowFields j.seq m.title m.artist m.genre arr).take k) ∧
      s.errors = 1 := by
  have hsong : Song.init w j.file_path =
      Except.ok ⟨m.title, m.artist, m.genre, m.time_secs, true, mat⟩ := by
    simp [Song.init, hm, hmf, hlen]
  have hklen : k < (mat.map fun arr => rowFields j.seq m.title m.artist m.genre arr).length := by
    rw [List.length_map]
    exact hk
  have hpj : processor_job w j =
      ⟨(mat.map fun arr => rowFields j.seq m.title m.artist m.genre arr).take k,
        some PyErr.sinkWrite⟩ := by
    have h1 : processor_job w j =
        ⟨(writeRows (w.appendFails j.file_path)
            (mat.map fun arr => rowFields j.seq m.title m.artist m.genre arr)).1,
          (writeRows (w.appendFails j.file_path)
            (mat.map fun arr => rowFields j.seq m.title m.artist m.genre arr)).2⟩ := by
      unfold processor_job
      rw [hsong]
      rfl
    rw [h1, hfail]
    rw [show writeRows (some k)
          (mat.map fun arr => rowFields j.seq m.title m.artist m.genre arr) =
        if k < (mat.map fun arr => rowFields j.seq m.title m.artist m.genre arr).length
        then ((mat.map fun arr => rowFields j.seq m.title m.artist m.genre arr).take k,
          some PyErr.sinkWrite)
        else (mat.map fun arr => rowFields j.seq m.title m.artist m.genre arr, none)
      from rfl]
    rw [if_pos hklen]
  obtain ⟨-, -, -, hsink, herr, -⟩ := terminal_char h h0
  refine ⟨by rw [hpj], ?_, by rw [hpj], ?_, ?_⟩
  · rw [hpj]
    show (mat.map fun arr => rowFields j.seq m.title m.artist m.genre arr).take k ≠ []
    intro hnil
    have hlen0 := congrArg List.length hnil
    rw [List.length_take, List.length_map] at hlen0
    simp only [List.length_nil] at hlen0
    omega
  · rw [hsink, rowsOf_singleton, hpj]
  · rw [herr]
    simp [hpj]

theorem c9_witness :
    (wPartial.meta jobA.file_path = Except.ok metaA ∧
        min_song_length ≤ metaA.time_secs ∧
        wPartial.mfcc jobA.file_path = Except.ok [[1], [2], [3]] ∧
        wPartial.appendFails jobA.file_path = some 1 ∧
        1 < ([[1], [2], [3]] : List (List ℚ)).length ∧ 0 < 1 ∧
        Reach wPartial [jobA] 1 (runInit wPartial [jobA] 1) ∧
        (runInit wPartial [jobA] 1).unfinished = 0) ∧
      ((processor_job wPartial jobA).rows =
          (([[1], [2], [3]] : List (List ℚ)).map fun arr =>
            rowFields jobA.seq metaA.title metaA.artist metaA.genre arr).take 1 ∧
        (processor_job wPartial jobA).rows ≠ [] ∧
        (processor_job wPartial jobA).err = some PyErr.sinkWrite ∧
        (↑(runInit wPartial [jobA] 1).sink : Multiset Row) =
          ↑((([[1], [2], [3]] : List (List ℚ)).map fun arr =>
            rowFields jobA.seq metaA.title metaA.artist metaA.genre arr).take 1) ∧
        (runInit wPartial [jobA] 1).errors = 1) :=
  ⟨⟨rfl, by decide, rfl, rfl, by decide, by decide,
      reach_runInit wPartial [jobA] 1 (by omega), runInit_unfinished wPartial [jobA] 1⟩,
    c9_partial_rows wPartial jobA metaA [[1], [2], [3]] 1 1 _ rfl (by decide) rfl rfl
      (by decide) (by decide)
      (reach_runInit wPartial [jobA] 1 (by omega)) (runInit_unfinished wPartial [jobA] 1)⟩

end MusicClustering
